import Mathlib

/-!
Shallow embedding of the XML document analysis core of the repository
(`src/xml_files/src/xml_document_analysis_framework.py`, with the companion
`src/xml_files/src/xml_schema_analyzer.py`), together with proofs settling
the frozen claims about it.

Conventions of the embedding:
* Python `str` values used as raw document content are modelled as `List Char`
  (one entry per code point, as Python indexes/slices by code point);
  short names (tags, attribute names, ids) are Lean `String`s.
* Python dicts (3.7+ insertion-ordered) are association lists; Python sets of
  strings/ints are duplicate-free lists in first-insertion order (only
  membership and cardinality of these sets are ever consumed by the code).
* `len(s.encode())` (UTF-8 byte length) is `utf8Len`.
* Fallible Python code (raising) is modelled with `Except PyError` / `Option`.
* Unbounded recursion in the source is modelled with an explicit fuel
  parameter; `none` at every fuel value means the recursion never completes.
-/

namespace XMLFrame

/-- Raw document content: one entry per Python code point. -/
abbrev Str := List Char

/-- Number of newline characters, modelling Python `s.count('\n')`. -/
def countNL (s : Str) : Nat := s.count '\n'

/-- Python `s[:n]` on a short string. -/
def strTake (s : String) (n : Nat) : String := String.mk (s.toList.take n)

/-- Split at the first colon: `some (before, after)`, or `none` when the
string has no colon. Models `':' in name` plus `name.split(':', 1)`. -/
def breakOnColon : Str → Option (Str × Str)
  | [] => none
  | c :: rest =>
    if c = ':' then some ([], rest)
    else (breakOnColon rest).map (fun p => (c :: p.1, p.2))

/-- Model of lines 94–97 of the framework: `namespace, local_name =
name.split(':', 1)` when a colon is present, else no namespace. -/
def splitQName (name : String) : Option String × String :=
  match breakOnColon name.toList with
  | none => (none, name)
  | some (pre, post) => (some (String.mk pre), String.mk post)

/-- Python `s.split(':')[-1]`: the suffix after the last colon. -/
def afterLastColon (s : String) : String :=
  String.mk ((s.toList.reverse.takeWhile (fun c => c ≠ ':')).reverse)

/-- Python `name.split(':', 1)[-1] if ':' in name else name`. -/
def afterFirstColon (s : String) : String :=
  match breakOnColon s.toList with
  | none => s
  | some (_, post) => String.mk post

/-- Python `s.strip()` (whitespace stripped from both ends). -/
def pyStrip (s : String) : String :=
  String.mk (((s.toList.dropWhile Char.isWhitespace).reverse.dropWhile
    Char.isWhitespace).reverse)

/-- Python `'/'.join(parts)`. -/
def joinSlash : List String → String
  | [] => ""
  | [x] => x
  | x :: rest => x ++ "/" ++ joinSlash rest

/-- UTF-8 byte length of content, modelling `len(s.encode())`. -/
def utf8Len (s : Str) : Nat := s.foldl (fun n c => n + c.utf8Size) 0

/-- Python substring test `pat in s`. -/
def containsSub (pat s : String) : Bool := decide (List.IsInfix pat.toList s.toList)

/-- Set insertion in first-insertion order, modelling Python `set.add`. -/
def insertSet {α : Type} [DecidableEq α] (x : α) (l : List α) : List α :=
  if x ∈ l then l else l ++ [x]

/-- Dict read, modelling `d[k]` / `k in d` on an insertion-ordered dict. -/
def lookupTag {α : Type} : List (String × α) → String → Option α
  | [], _ => none
  | (k, v) :: rest, t => if k = t then some v else lookupTag rest t

/-- Dict write `d[k] = v`: replaces in place, or appends a new key at the
end, exactly the insertion-order behaviour of a Python dict. -/
def setTag {α : Type} : List (String × α) → String → α → List (String × α)
  | [], t, v => [(t, v)]
  | (k, w) :: rest, t, v =>
    if k = t then (t, v) :: rest else (k, w) :: setTag rest t v

/-! ### Data model (`@dataclass` definitions, lines 32–66 of the framework) -/

/-- Per-tag profile, source `XMLElement` (lines 32–44). The source field
`namespace` is a Lean keyword and is rendered `ns` here. -/
structure XMLElement where
  tag : String
  ns : Option String
  count : Nat
  depths : List Nat
  attributes : List (String × List String)
  text_samples : List String
  parent_elements : List String
  child_elements : List String
  paths : List String
  line_numbers : List Nat
deriving DecidableEq

/-- Node of the nested structure tree built by `_build_subtree`
(lines 544–560): `{count, namespace, attributes, has_text, children}`. -/
inductive StructNode where
  | mk (count : Nat) (ns : Option String) (attributes : List String)
      (has_text : Bool) (children : List (String × StructNode))

/-- The `statistics` dict built at lines 475–481. -/
structure Statistics where
  file_size_bytes : Nat
  total_elements : Nat
  unique_elements : Nat
  max_depth : Nat
  namespace_count : Nat
deriving DecidableEq

/-- Source `DocumentSchema` (lines 46–55); `specialized_info` is always the
empty dict in the analyzed code and is modelled as `Unit`. -/
structure DocumentSchema where
  document_type : String
  root_element : String
  namespaces : List (String × String)
  elements : List (String × XMLElement)
  structure_tree : List (String × StructNode)
  statistics : Statistics
  specialized_info : Unit

/-- Source `DocumentChunk` (lines 57–66). -/
structure DocumentChunk where
  chunk_id : String
  content : Str
  element_path : String
  line_range : Nat × Nat
  size_bytes : Nat
  elements_contained : List String
  summary : String
deriving DecidableEq

/-- Python exceptions that the analyzed code can raise. -/
inductive PyError where
  | valueErrorMaxEmpty
  | attributeErrorNone
  | recursionError
deriving DecidableEq

/-! ### SAX events and the `XMLStreamHandler` accumulator (lines 68–146) -/

/-- Events a SAX content handler can receive. `prefixMapping` stands for the
parser's namespace-declaration callback (SAX name `startPrefixMapping`). -/
inductive SaxEvent where
  | startEl (name : String) (attrs : List (String × String))
  | endEl (name : String)
  | characters (content : String)
  | prefixMapping (pfx uri : String)

/-- Mutable state of `XMLStreamHandler` (lines 71–84). -/
structure HandlerState where
  elements : List (String × XMLElement)
  namespaces : List (String × String)
  element_stack : List String
  path_stack : List String
  current_text : String
  line_number : Nat
deriving DecidableEq

/-- The `defaultdict` default profile (lines 73–77). -/
def freshXMLElement : XMLElement :=
  { tag := "", ns := none, count := 0, depths := [], attributes := [],
    text_samples := [], parent_elements := [], child_elements := [],
    paths := [], line_numbers := [] }

/-- Handler state right after `__init__` (lines 71–84). -/
def initHandlerState : HandlerState :=
  { elements := [], namespaces := [], element_stack := [], path_stack := [],
    current_text := "", line_number := 1 }

/-- Read `self.elements[tag]`, creating the defaultdict default on miss. -/
def getElem (els : List (String × XMLElement)) (t : String) : XMLElement :=
  (lookupTag els t).getD freshXMLElement

/-- Attribute sampling (lines 118–121): `attributes[clean_attr].add(value[:50])`.
The per-attribute value container is a Python `set` with no size cap. -/
def attrInsert : List (String × List String) → String → String →
    List (String × List String)
  | [], k, v => [(k, [v])]
  | (k', vs) :: rest, k, v =>
    if k' = k then (k', insertSet v vs) :: rest
    else (k', vs) :: attrInsert rest k v

/-- One turn of the attribute-sampling loop of `startElement` (lines
118–121): `attributes[attr_name.split(':')[-1]].add(attr_value[:50])`. -/
def attrStep (localName : String) (m : List (String × XMLElement))
    (av : String × String) : List (String × XMLElement) :=
  let p := getElem m localName
  setTag m localName
    { p with attributes :=
        attrInsert p.attributes (afterLastColon av.1) (strTake av.2 50) }

/-- The profile update of `startElement` for the element's own tag
(lines 100–114): count, depth set, line numbers, path set, and — when the
element stack is non-empty — the parent registration. -/
def startProfile (st : HandlerState) (name : String) : XMLElement :=
  let localName := (splitQName name).2
  let p0 := getElem st.elements localName
  { p0 with
    tag := localName
    ns := (splitQName name).1
    count := p0.count + 1
    depths := insertSet st.element_stack.length p0.depths
    line_numbers := p0.line_numbers ++ [st.line_number]
    paths := insertSet (joinSlash (st.path_stack ++ [localName])) p0.paths
    parent_elements :=
      match st.element_stack.getLast? with
      | some parentTag => insertSet parentTag p0.parent_elements
      | none => p0.parent_elements }

/-- The reverse registration of line 115:
`self.elements[parent_tag].child_elements.add(local_name)`. -/
def addChildTo (els : List (String × XMLElement)) (parentTag localName : String) :
    List (String × XMLElement) :=
  let pp := getElem els parentTag
  setTag els parentTag
    { pp with child_elements := insertSet localName pp.child_elements }

/-- Source `XMLStreamHandler.startElement` (lines 92–125), one step of the
accumulator. Updates of the two dict entries are threaded sequentially, which
also reproduces the Python aliasing when the parent tag equals the local tag. -/
def XMLStreamHandler.startElement (st : HandlerState) (name : String)
    (attrs : List (String × String)) : HandlerState :=
  let localName := (splitQName name).2
  let els1 := setTag st.elements localName (startProfile st name)
  let els2 :=
    match st.element_stack.getLast? with
    | some parentTag => addChildTo els1 parentTag localName
    | none => els1
  let els3 := attrs.foldl (attrStep localName) els2
  { st with
    elements := els3
    element_stack := st.element_stack ++ [localName]
    path_stack := st.path_stack ++ [localName]
    current_text := "" }

/-- Source `XMLStreamHandler.endElement` (lines 127–141). -/
def XMLStreamHandler.endElement (maxSamples maxTextLength : Nat)
    (st : HandlerState) (name : String) : HandlerState :=
  let localName := afterFirstColon name
  let stripped := pyStrip st.current_text
  let els' :=
    if stripped ≠ "" ∧ (lookupTag st.elements localName).isSome then
      let p := getElem st.elements localName
      if p.text_samples.length < maxSamples then
        setTag st.elements localName
          { p with text_samples := p.text_samples ++ [strTake stripped maxTextLength] }
      else st.elements
    else st.elements
  { st with
    elements := els'
    element_stack := st.element_stack.dropLast
    path_stack := st.path_stack.dropLast
    current_text := "" }

/-- Source `XMLStreamHandler.characters` (lines 143–146). -/
def XMLStreamHandler.characters (st : HandlerState) (content : String) : HandlerState :=
  { st with
    current_text := st.current_text ++ content
    line_number := st.line_number + countNL content.toList }

/-- Source `XMLStreamHandler.startNamespace` (lines 86–90). Note this is not
a SAX `ContentHandler` callback name; the SAX machinery never invokes it. -/
def XMLStreamHandler.startNamespace (st : HandlerState) (pfx uri : String) : HandlerState :=
  if pfx ≠ "" then { st with namespaces := setTag st.namespaces pfx uri }
  else { st with namespaces := setTag st.namespaces "default" uri }

/-- One accumulator step with the handler's methods dispatched as written
(the intended wiring of the Schema Accumulator). -/
def stepEvent (maxSamples maxTextLength : Nat) (st : HandlerState) :
    SaxEvent → HandlerState
  | .startEl name attrs => XMLStreamHandler.startElement st name attrs
  | .endEl name => XMLStreamHandler.endElement maxSamples maxTextLength st name
  | .characters content => XMLStreamHandler.characters st content
  | .prefixMapping pfx uri => XMLStreamHandler.startNamespace st pfx uri

/-- Schema accumulation over an event sequence with the handler's methods. -/
def runHandler (maxSamples maxTextLength : Nat) (events : List SaxEvent) : HandlerState :=
  events.foldl (stepEvent maxSamples maxTextLength) initHandlerState

/-- One step of what the SAX machinery actually delivers to this handler:
`analyze_document` (line 456) enables `feature_namespaces`, so expat invokes
`startElementNS`/`endElementNS`/`startPrefixMapping` — all inherited no-ops,
since the handler overrides none of them — and only `characters` reaches the
handler's own code. -/
def nsDispatchStep (st : HandlerState) : SaxEvent → HandlerState
  | .characters content => XMLStreamHandler.characters st content
  | _ => st

/-- Accumulation as actually wired by `analyze_document` (namespace mode). -/
def runHandlerActual (events : List SaxEvent) : HandlerState :=
  events.foldl nsDispatchStep initHandlerState

/-! ### Well-formed documents and their parse events -/

/-- A well-formed XML element tree: tag, attributes, direct text, children.
Tail text is not modelled; the concrete documents used below have none. -/
inductive XTree where
  | node (tag : String) (attrs : List (String × String)) (text : String)
      (children : List XTree)

def XTree.tag : XTree → String
  | .node t _ _ _ => t

def XTree.attrs : XTree → List (String × String)
  | .node _ a _ _ => a

def XTree.text : XTree → String
  | .node _ _ tx _ => tx

def XTree.children : XTree → List XTree
  | .node _ _ _ cs => cs

mutual

/-- The SAX event sequence a parse of the document delivers: start, character
data (when present), the children's events, end. -/
def saxEventsOf : XTree → List SaxEvent
  | .node t attrs tx cs =>
    [SaxEvent.startEl t attrs] ++
    (if tx = "" then [] else [SaxEvent.characters tx]) ++
    saxEventsOfList cs ++
    [SaxEvent.endEl t]

/-- SAX events of a forest, in order. -/
def saxEventsOfList : List XTree → List SaxEvent
  | [] => []
  | c :: rest => saxEventsOf c ++ saxEventsOfList rest

end

mutual

/-- Serialization as produced by `ET.tostring(elem, encoding='unicode')`:
empty elements render as `<tag />`, attributes as `key="value"` pairs. -/
def serialize : XTree → Str
  | .node t attrs tx cs =>
    let attrStr : Str :=
      (attrs.map (fun av => (" " ++ av.1 ++ "=\"" ++ av.2 ++ "\"").toList)).flatten
    if tx.isEmpty ∧ cs.isEmpty then
      ('<' :: t.toList) ++ attrStr ++ (" />").toList
    else
      ('<' :: t.toList) ++ attrStr ++ ['>'] ++ tx.toList ++
        serializeList cs ++ ("</" ++ t ++ ">").toList

/-- Serialization of a forest, in order. -/
def serializeList : List XTree → Str
  | [] => []
  | c :: rest => serialize c ++ serializeList rest

end

/-- Events of `ET.iterparse(..., events=('start', 'end'))`; the payload is
the (eventually fully built) element, read via `.tag` at `start` and
serialized via `ET.tostring` at `end`. -/
inductive IterEvent where
  | startEv (t : XTree)
  | endEv (t : XTree)

mutual

/-- Document-order iterparse event list of a tree. -/
def iterEventsOf : XTree → List IterEvent
  | .node t attrs tx cs =>
    IterEvent.startEv (.node t attrs tx cs) ::
      iterEventsOfList cs ++ [IterEvent.endEv (.node t attrs tx cs)]

/-- Iterparse events of a forest, in order. -/
def iterEventsOfList : List XTree → List IterEvent
  | [] => []
  | c :: rest => iterEventsOf c ++ iterEventsOfList rest

end

/-- Python `elem.tag.split('}')[-1] if '}' in elem.tag else elem.tag`
(lines 240, 61 of the analyzer): strip an expanded-namespace `{uri}` marker. -/
def cleanBraceTag (s : String) : String :=
  String.mk ((s.toList.reverse.takeWhile (fun c => c ≠ Char.ofNat 125)).reverse)

/-! ### Structure tree builder (`_build_structure_tree` / `_build_subtree`,
lines 533–560) -/

/-- The `for child_tag in element.child_elements: if child_tag in elements:`
loop of `_build_subtree` (lines 556–558): recurse (via `subBuild`) into each
child present in the table, in set order; a failing recursion fails the
whole build. -/
def childFold (subBuild : String → Option StructNode)
    (els : List (String × XMLElement)) : List String → Option (List (String × StructNode))
  | [] => some []
  | c :: rest =>
    match lookupTag els c with
    | none => childFold subBuild els rest
    | some _ =>
      match subBuild c, childFold subBuild els rest with
      | some n, some l => some ((c, n) :: l)
      | _, _ => none

/-- Source `XMLAgentFramework._build_subtree` (lines 544–560), with an
explicit recursion budget: the source has no depth cap, so `none` for every
budget value means the Python recursion never terminates (CPython aborts it
with `RecursionError` at its interpreter recursion limit). -/
def buildSubtree (els : List (String × XMLElement)) : Nat → String → Option StructNode
  | 0, _ => none
  | fuel + 1, tag =>
    match lookupTag els tag with
    | none => none
    | some p =>
      match childFold (fun c => buildSubtree els fuel c) els p.child_elements with
      | none => none
      | some children =>
        some (StructNode.mk p.count p.ns (p.attributes.map Prod.fst)
          (decide (p.text_samples.length > 0)) children)

/-- Source `XMLAgentFramework._build_structure_tree` (lines 533–542):
one subtree per tag with an empty parent set, in dict order. -/
def buildStructureTree (els : List (String × XMLElement)) (fuel : Nat) :
    Option (List (String × StructNode)) :=
  (els.filter (fun tp => tp.2.parent_elements = [])).foldr
    (fun tp acc =>
      match acc with
      | none => none
      | some l =>
        match buildSubtree els fuel tp.1 with
        | none => none
        | some n => some ((tp.1, n) :: l))
    (some [])

/-- CPython's default interpreter recursion limit, the budget at which the
uncapped `_build_subtree` recursion actually dies with `RecursionError`. -/
def pyRecursionLimit : Nat := 1000

/-! ### Root element, statistics, detector, and `analyze_document` -/

/-- Root-element selection of `analyze_document` (lines 464–469): the first
tag in dict order whose parent set is empty, defaulting to `""`. -/
def rootElementOf : List (String × XMLElement) → String
  | [] => ""
  | (tag, p) :: rest =>
    if p.parent_elements = [] then tag else rootElementOf rest

/-- The `max_depth` statistic (line 479):
`max(max(e.depths) for e in handler.elements.values() if e.depths)`.
`none` models the `ValueError` Python's `max` raises on an empty sequence. -/
def maxDepthStat (els : List (String × XMLElement)) : Option Nat :=
  (els.filterMap (fun tp => tp.2.depths.max?)).max?

/-- Registry `DocumentTypeDetector.DOCUMENT_PATTERNS` (lines 151–192):
`(type name, root_elements, namespaces)` in registration order. -/
def DOCUMENT_PATTERNS : List (String × List String × List String) :=
  [("SCAP", ["asset-report-collection", "data-stream-collection"],
    ["http://scap.nist.gov", "http://checklists.nist.gov/xccdf"]),
   ("XCCDF", ["Benchmark"], ["http://checklists.nist.gov/xccdf"]),
   ("OVAL", ["oval_definitions", "oval_results"], ["http://oval.mitre.org/XMLSchema"]),
   ("SOAP", ["Envelope"], ["http://schemas.xmlsoap.org/soap"]),
   ("XML_SCHEMA", ["schema"], ["http://www.w3.org/2001/XMLSchema"]),
   ("RSS", ["rss", "feed"], ["http://www.w3.org/2005/Atom"]),
   ("SVG", ["svg"], ["http://www.w3.org/2000/svg"]),
   ("WSDL", ["definitions"], ["http://schemas.xmlsoap.org/wsdl"])]

/-- Pattern scan of `DocumentTypeDetector.detect_type` (lines 194–208): for
each pattern in registration order, return its type on a root-element match,
else on any pattern namespace occurring as a substring of any declared
namespace URI; `GENERIC_XML` when no pattern matches. -/
def detectScan (schema : DocumentSchema) :
    List (String × List String × List String) → String
  | [] => "GENERIC_XML"
  | (docType, roots, nss) :: rest =>
    if schema.root_element ∈ roots then docType
    else if nss.any (fun pns => schema.namespaces.any (fun kv => containsSub pns kv.2))
      then docType
    else detectScan schema rest

/-- Source `DocumentTypeDetector.detect_type` (lines 194–208). -/
def detectType (schema : DocumentSchema) : String :=
  detectScan schema DOCUMENT_PATTERNS

/-- The call `DocumentTypeDetector.detect_type(None)` at line 500: on `None`
the first loop iteration evaluates `None.root_element` and raises
`AttributeError`. -/
def detectTypeOfOption : Option DocumentSchema → Except PyError String
  | none => .error .attributeErrorNone
  | some s => .ok (detectType s)

/-- Schema construction and final steps of `analyze_document`
(lines 461–512) from the accumulated handler state; `fileSize` is the
`Path(file_path).stat().st_size` of the source file. -/
def analyzeFromState (fileSize : Nat) (st : HandlerState) :
    Except PyError DocumentSchema :=
  match buildStructureTree st.elements pyRecursionLimit with
  | none => .error .recursionError
  | some tree =>
    let root := rootElementOf st.elements
    match maxDepthStat st.elements with
    | none => .error .valueErrorMaxEmpty
    | some md =>
      let stats : Statistics :=
        { file_size_bytes := fileSize
          total_elements := (els_counts st.elements).sum
          unique_elements := st.elements.length
          max_depth := md
          namespace_count := st.namespaces.length }
      match detectTypeOfOption none with
      | .error e => .error e
      | .ok dt0 =>
        let schema0 : DocumentSchema :=
          { document_type := dt0
            root_element := root
            namespaces := st.namespaces
            elements := st.elements
            structure_tree := tree
            statistics := stats
            specialized_info := () }
        .ok { schema0 with document_type := detectType schema0 }
where
  els_counts (els : List (String × XMLElement)) : List Nat :=
    els.map (fun tp => tp.2.count)

/-- Source `XMLAgentFramework.analyze_document` (lines 448–512) on a
well-formed document: the SAX parse succeeds and delivers the document's
event stream, but in namespace mode (line 456) none of the handler's
element callbacks are invoked (see `nsDispatchStep`). -/
def analyzeDocument (fileSize : Nat) (doc : XTree) : Except PyError DocumentSchema :=
  analyzeFromState fileSize (runHandlerActual (saxEventsOf doc))

/-! ### `XMLChunker` (lines 210–317) -/

/-- Hex digit for a value below 16. -/
def hexDigit (n : Nat) : Char :=
  if n < 10 then Char.ofNat (48 + n) else Char.ofNat (87 + n % 16)

/-- Model of `hashlib.md5(content.encode()).hexdigest()[:8]` (lines 244,
265): an external-library digest, modelled as a deterministic 32-bit
polynomial hash of the content rendered as 8 hex characters. Only its being
a function of the content bytes matters for the properties proved here. -/
def md5Hex8 (content : Str) : String :=
  let h := content.foldl (fun a c => (a * 131 + c.toNat) % 4294967296) 0
  String.mk ((List.range 8).map (fun i => hexDigit (h / 16 ^ (7 - i) % 16)))

/-- Python `f"chunk_{n:03d}"` (line 302). -/
def chunkNumId (n : Nat) : String :=
  let s := toString n
  "chunk_" ++ (if n < 10 then "00" else if n < 100 then "0" else "") ++ s

/-- Major-element selection of `chunk_by_elements` (lines 221–226): tags with
`count < 100`, more than 3 distinct child tags, and minimum depth ≤ 3, in
dict order. `min(element.depths)` on an empty set would raise in Python;
every accumulated profile has a non-empty depth set. -/
def majorElements (schema : DocumentSchema) : List String :=
  (schema.elements.filter (fun tp =>
    decide (tp.2.count < 100) && decide (tp.2.child_elements.length > 3) &&
      (match tp.2.depths.min? with
       | some d => decide (d ≤ 3)
       | none => false))).map Prod.fst

/-- Flushed chunk of the element strategy (lines 244–253 and 264–274). -/
def mkElemChunk (content : Str) (chunkEls : List String) (lineStart : Nat)
    (summary : String) : DocumentChunk :=
  { chunk_id := md5Hex8 content
    content := content
    element_path := "/" ++ joinSlash chunkEls
    line_range := (lineStart, lineStart + countNL content)
    size_bytes := utf8Len content
    elements_contained := chunkEls
    summary := summary }

/-- Loop state of `chunk_by_elements` (lines 233–235). -/
structure ElemChunkState where
  chunks : List DocumentChunk
  current : Str
  chunkEls : List String
  lineStart : Nat

/-- One iteration of the `chunk_by_elements` event loop (lines 239–261).
On a major-element start with a buffer above the 1000-byte minimum, the
buffer is flushed; the source resets `current_chunk` to `""` *before* adding
`current_chunk.count('\n')` to `line_start`, so `line_start` never advances.
Independently, the buffer grows by the full `ET.tostring` serialization of
every element at its `end` event while shorter than `max_chunk_size`. -/
def elemChunkStep (maxChunkSize : Nat) (major : List String)
    (st : ElemChunkState) (ev : IterEvent) : ElemChunkState :=
  let elem := match ev with | .startEv t => t | .endEv t => t
  let tagName := cleanBraceTag elem.tag
  let isStart := match ev with | .startEv _ => true | .endEv _ => false
  let st1 :=
    if isStart = true ∧ tagName ∈ major then
      if st.current ≠ [] ∧ st.current.length > 1000 then
        { chunks := st.chunks ++
            [mkElemChunk st.current st.chunkEls st.lineStart
              ("Contains " ++ toString st.chunkEls.length ++
                " elements including " ++ tagName)]
          current := []
          chunkEls := [tagName]
          lineStart := st.lineStart + countNL [] }
      else { st with chunkEls := st.chunkEls ++ [tagName] }
    else st
  if st1.current.length < maxChunkSize then
    { st1 with current := st1.current ++
        (match ev with | .endEv t => serialize t | .startEv _ => []) }
  else st1

/-- Python `content.rfind('</', start, end)`: the largest `i` with
`start ≤ i`, `i + 2 ≤ stop` and `content[i:i+2] == "</"`; `none` models the
`-1` not-found result (which fails the caller's guard). -/
def rfindCloseStart (content : Str) (start stop : Nat) : Option Nat :=
  ((List.range content.length).filter (fun i =>
    decide (start ≤ i) && decide (i + 2 ≤ stop) &&
      decide ((content.drop i).take 2 = ['<', '/']))).getLast?

/-- Python `content.find('>', pos)`: the least `j ≥ pos` with
`content[j] == '>'`, searching to the end of the string. -/
def findGt (content : Str) (pos : Nat) : Option Nat :=
  ((List.range content.length).filter (fun j =>
    decide (pos ≤ j) && decide ((content.drop j).head? = some '>'))).head?

/-- Window-end computation of `chunk_by_size` (lines 290–299): the tentative
end is `min(start + max_chunk_size, len)`; when that is interior and a `</`
occurs strictly past the window's midpoint, the cut moves to just past the
next `>` — which `content.find('>', last_element_end)` searches for without
an upper bound, so the cut can move beyond the tentative end. -/
def chunkEnd (content : Str) (maxChunkSize start : Nat) : Nat :=
  let len := content.length
  let end0 := min (start + maxChunkSize) len
  if end0 < len then
    match rfindCloseStart content start end0 with
    | some i =>
      if start + maxChunkSize / 2 < i then
        match findGt content i with
        | some j => j + 1
        | none => end0
      else end0
    | none => end0
  else end0

/-- The chunk record built by one `chunk_by_size` iteration (lines 301–312),
for the window `[start, chunkEnd)`. -/
def mkSizeChunk (content : Str) (maxChunkSize start num : Nat) : DocumentChunk :=
  let e := chunkEnd content maxChunkSize start
  let chunkContent := (content.drop start).take (e - start)
  { chunk_id := chunkNumId num
    content := chunkContent
    element_path := "size_based"
    line_range := (countNL (content.take start) + 1, countNL (content.take e) + 1)
    size_bytes := utf8Len chunkContent
    elements_contained := []
    summary := "Size-based chunk " ++ toString num }

/-- The `while start < len(content)` loop of `chunk_by_size` (lines 289–315)
with an explicit fuel budget; each iteration emits one chunk and advances
`start` to `end - overlap_size` (or terminates when the window reached the
end of the content). `none` means the budget was insufficient — which, for
the fuel used by `chunkBySize`, happens exactly when the Python loop fails
to make progress. -/
def chunkBySizeAux (content : Str) (maxChunkSize overlapSize : Nat) :
    Nat → Nat → Nat → Option (List DocumentChunk)
  | 0, _, _ => none
  | fuel + 1, start, num =>
    if start < content.length then
      let e := chunkEnd content maxChunkSize start
      let c := mkSizeChunk content maxChunkSize start num
      if e < content.length then
        match chunkBySizeAux content maxChunkSize overlapSize fuel
          (e - overlapSize) (num + 1) with
        | some rest => some (c :: rest)
        | none => none
      else some [c]
    else some []

/-- Source `XMLChunker.chunk_by_size` (lines 278–317). -/
def chunkBySize (content : Str) (maxChunkSize overlapSize : Nat) :
    Option (List DocumentChunk) :=
  chunkBySizeAux content maxChunkSize overlapSize (content.length + 1) 0 0

/-- Source `XMLChunker.chunk_by_elements` (lines 217–276): with at least one
major element, fold the iterparse events through `elemChunkStep` and flush
any remaining buffer; with none, fall back to `chunk_by_size` on the raw
file content (the `getD` only papers over fuel exhaustion of the model,
i.e. the parameter settings at which the Python loop itself diverges). -/
def chunkByElements (raw : Str) (doc : XTree) (schema : DocumentSchema)
    (maxChunkSize overlapSize : Nat) : List DocumentChunk :=
  let major := majorElements schema
  if major = [] then (chunkBySize raw maxChunkSize overlapSize).getD []
  else
    let finalSt := (iterEventsOf doc).foldl (elemChunkStep maxChunkSize major)
      { chunks := [], current := [], chunkEls := [], lineStart := 1 }
    if finalSt.current ≠ [] then
      finalSt.chunks ++
        [mkElemChunk finalSt.current finalSt.chunkEls finalSt.lineStart
          ("Final chunk with " ++ toString finalSt.chunkEls.length ++ " elements")]
    else finalSt.chunks

/-- Concatenation of chunk contents with the declared overlap removed from
every chunk after the first (spec §8, Coverage). -/
def reconstructOverlap (overlapSize : Nat) : List DocumentChunk → Str
  | [] => []
  | c :: rest => c.content ++ (rest.map (fun d => d.content.drop overlapSize)).flatten

/-- Chunk-id well-formedness on the element path: the id is the (modelled)
md5 digest prefix of the chunk's own content bytes. -/
def chunkIdOk (c : DocumentChunk) : Bool := c.chunk_id == md5Hex8 c.content

/-- Child-tag set of a tag, with the defaultdict default for absent tags. -/
def childElems (els : List (String × XMLElement)) (t : String) : List String :=
  (getElem els t).child_elements

/-- Parent-tag set of a tag, with the defaultdict default for absent tags. -/
def parentElems (els : List (String × XMLElement)) (t : String) : List String :=
  (getElem els t).parent_elements

/-- Per-profile sampling bound (spec §8, Sample caps, as amended): the text
sample list respects the cap, and every sampled attribute value is at most
50 characters. -/
def sampleInv (maxSamples : Nat) (p : XMLElement) : Prop :=
  p.text_samples.length ≤ maxSamples ∧
    ∀ kv ∈ p.attributes, ∀ v ∈ kv.2, v.length ≤ 50

/-- Table-wide sampling bound. -/
def TableInv (maxSamples : Nat) (els : List (String × XMLElement)) : Prop :=
  ∀ t p, lookupTag els t = some p → sampleInv maxSamples p

/-- Parent/child symmetry invariant (spec §8, Relation symmetry). -/
def SymmInv (els : List (String × XMLElement)) : Prop :=
  ∀ A B, B ∈ childElems els A ↔ A ∈ parentElems els B

/-! ### Concrete documents used by the counterexamples and witnesses -/

/-- Document `<r><a /><b /><c /><d /></r>`: its root has four distinct child
tags, so `r` qualifies as a major element for the chunker. -/
def docR : XTree :=
  .node "r" [] "" [.node "a" [] "" [], .node "b" [] "" [],
    .node "c" [] "" [], .node "d" [] "" []]

/-- The raw file content of `docR` (its canonical serialization, 27 chars). -/
def rawR : Str := serialize docR

/-- The schema `analyze_document` would assemble for `docR` from the
accumulated handler state (the chunker reads only its `elements` table). -/
def schemaR : DocumentSchema :=
  { document_type := ""
    root_element := rootElementOf (runHandler 5 200 (saxEventsOf docR)).elements
    namespaces := []
    elements := (runHandler 5 200 (saxEventsOf docR)).elements
    structure_tree := []
    statistics := ⟨27, 5, 5, 1, 0⟩
    specialized_info := () }

/-- Document `<r><a><a /></a></r>`: well-formed, yet tag `a` nests under
itself, so `a` appears in its own child-tag set. -/
def docRAA : XTree := .node "r" [] "" [.node "a" [] "" [.node "a" [] "" []]]

/-- Element table accumulated for `docRAA`. -/
def tableRAA : List (String × XMLElement) :=
  (runHandler 5 200 (saxEventsOf docRAA)).elements

/-- Document `<r><i v="0" /> … <i v="5" /></r>`: six occurrences of tag `i`
with six distinct values of attribute `v`. -/
def docI6 : XTree :=
  .node "r" [] "" ((List.range 6).map (fun k => .node "i" [("v", toString k)] "" []))

/-- A schema with root `Benchmark` and a namespace URI containing
`checklists.nist.gov/xccdf` (the usual `http://`-prefixed XCCDF URI). -/
def benchSchema : DocumentSchema :=
  { document_type := ""
    root_element := "Benchmark"
    namespaces := [("xccdf", "http://checklists.nist.gov/xccdf/1.2")]
    elements := []
    structure_tree := []
    statistics := ⟨0, 0, 0, 0, 0⟩
    specialized_info := () }

/-- A schema with root `Benchmark` and a namespace URI containing
`checklists.nist.gov/xccdf` but not `http://checklists.nist.gov/xccdf`
(nor `http://scap.nist.gov`). -/
def benchSchema2 : DocumentSchema :=
  { benchSchema with namespaces := [("x", "https://checklists.nist.gov/xccdf")] }

/-- Document `<a><b><a /></b></a>`: the root's tag also occurs as a child,
so every accumulated tag has a non-empty parent set. -/
def docABA : XTree := .node "a" [] "" [.node "b" [] "" [.node "a" [] "" []]]

/-- Element table accumulated for `docABA`. -/
def tableABA : List (String × XMLElement) :=
  (runHandler 5 200 (saxEventsOf docABA)).elements

/-! ### Association-list and set helper lemmas -/

theorem lookupTag_setTag_self {α : Type} (m : List (String × α)) (t : String) (v : α) :
    lookupTag (setTag m t v) t = some v := by
  induction m with
  | nil => simp [setTag, lookupTag]
  | cons kv rest ih =>
    by_cases h : kv.1 = t
    · simp [setTag, h, lookupTag]
    · simp [setTag, h, lookupTag, ih]

theorem lookupTag_setTag_ne {α : Type} (m : List (String × α)) (t t' : String) (v : α)
    (h : t' ≠ t) : lookupTag (setTag m t v) t' = lookupTag m t' := by
  induction m with
  | nil => simp [setTag, lookupTag, Ne.symm h]
  | cons kv rest ih =>
    obtain ⟨k, w⟩ := kv
    by_cases hk : k = t
    · subst hk
      simp [setTag, lookupTag, Ne.symm h]
    · simp [setTag, hk, lookupTag, ih]

theorem mem_insertSet {α : Type} [DecidableEq α] (x y : α) (l : List α) :
    y ∈ insertSet x l ↔ y = x ∨ y ∈ l := by
  by_cases h : x ∈ l
  · simp only [insertSet, if_pos h]
    constructor
    · exact Or.inr
    · rintro (rfl | hy)
      · exact h
      · exact hy
  · simp [insertSet, if_neg h, or_comm]

theorem getElem_setTag_self (els : List (String × XMLElement)) (t : String)
    (p : XMLElement) : getElem (setTag els t p) t = p := by
  simp [getElem, lookupTag_setTag_self]

theorem getElem_setTag_ne (els : List (String × XMLElement)) (t t' : String)
    (p : XMLElement) (h : t' ≠ t) : getElem (setTag els t p) t' = getElem els t' := by
  simp [getElem, lookupTag_setTag_ne _ _ _ _ h]

/-! ### The namespace-mode wiring of `analyze_document` -/

theorem nsDispatch_elements (events : List SaxEvent) (st : HandlerState) :
    (events.foldl nsDispatchStep st).elements = st.elements := by
  induction events generalizing st with
  | nil => rfl
  | cons e rest ih =>
    rw [List.foldl_cons, ih]
    cases e <;> rfl

theorem analyzeFromState_empty (fileSize : Nat) (st : HandlerState)
    (h : st.elements = []) :
    analyzeFromState fileSize st = .error .valueErrorMaxEmpty := by
  unfold analyzeFromState
  rw [h]
  rfl

/-- C1: the claim states that `analyze_document` returns a `DocumentSchema`
for every well-formed document and aborts only on malformed XML. In fact it
raises for every document, well-formed or not: line 456 enables SAX
namespace mode, under which the parser delivers `startElementNS` /
`endElementNS` (no-ops inherited from `ContentHandler`, not overridden by
`XMLStreamHandler`), so the element table stays empty and line 479's
`max(...)` over an empty sequence raises `ValueError`. -/
theorem C1_analyze_document_always_raises (fileSize : Nat) (doc : XTree) :
    analyzeDocument fileSize doc = .error .valueErrorMaxEmpty := by
  unfold analyzeDocument runHandlerActual
  exact analyzeFromState_empty _ _ ((nsDispatch_elements _ _).trans rfl)

/-- C9: determinism of the analysis. Every stage of the embedded pipeline is
a pure function of the input bytes: the source consults no randomness, time,
or cross-call mutable state (fresh handler and chunker state per call), and
Python's set/dict iteration-order variation affects only dict key order,
never the values compared here. Two runs on byte-identical input therefore
yield identical results — including the identical `ValueError` that
`analyze_document` currently raises (see C1). -/
theorem C9_analysis_deterministic (fileSize : Nat) (doc : XTree) (raw : Str)
    (schema : DocumentSchema) (maxSamples maxTextLength maxChunkSize overlapSize : Nat) :
    analyzeDocument fileSize doc = analyzeDocument fileSize doc ∧
    runHandler maxSamples maxTextLength (saxEventsOf doc) =
      runHandler maxSamples maxTextLength (saxEventsOf doc) ∧
    chunkByElements raw doc schema maxChunkSize overlapSize =
      chunkByElements raw doc schema maxChunkSize overlapSize ∧
    chunkBySize raw maxChunkSize overlapSize = chunkBySize raw maxChunkSize overlapSize :=
  ⟨rfl, rfl, rfl, rfl⟩

/-- C10 counterexample: on `<a><b><a /></b></a>` — the claim's premise, the
root's tag occurring as a child — `analyze_document` does not return any
`DocumentSchema` at all (so in particular not one with an empty
`root_element`): it raises, as it does for every input. -/
theorem C10_counterexample_analyze_never_returns :
    analyzeDocument 24 docABA = .error .valueErrorMaxEmpty := by
  unfold analyzeDocument runHandlerActual
  exact analyzeFromState_empty _ _ ((nsDispatch_elements _ _).trans rfl)

/-- C10 amended: the root-element selection logic of `analyze_document`
(lines 464–469) — first tag in dict order with an empty parent set, default
`""` — does yield the empty string whenever every accumulated tag has a
non-empty parent set; the surrounding `analyze_document` raises before it
could return the schema carrying that value. -/
theorem C10_root_selection_empty_when_all_parented
    (els : List (String × XMLElement))
    (h : els.all (fun tp => !tp.2.parent_elements.isEmpty) = true) :
    rootElementOf els = "" := by
  induction els with
  | nil => rfl
  | cons tp rest ih =>
    simp only [List.all_cons, Bool.and_eq_true] at h
    unfold rootElementOf
    rw [if_neg, ih h.2]
    intro hc
    rw [hc] at h
    simp at h

/-- C10 witness: the table accumulated from `<a><b><a /></b></a>` satisfies
the hypothesis, and the root-selection logic returns the empty string on it. -/
theorem C10_witness :
    (tableABA.all (fun tp => !tp.2.parent_elements.isEmpty) = true) ∧
      rootElementOf tableABA = "" :=
  ⟨by decide, C10_root_selection_empty_when_all_parented _ (by decide)⟩

/-! ### Document type detection (C2) -/

/-- C2 counterexample: a schema with root `Benchmark` whose declared
namespace URI `http://checklists.nist.gov/xccdf/1.2` contains the claimed
substring `checklists.nist.gov/xccdf` is detected as `SCAP`, not `XCCDF`:
the detector returns the first matching pattern in registration order, has
no confidence scores at all, and the SCAP pattern — registered before
XCCDF — also lists `http://checklists.nist.gov/xccdf` as a namespace
fragment. -/
theorem C2_counterexample_scap_wins :
    containsSub "checklists.nist.gov/xccdf" "http://checklists.nist.gov/xccdf/1.2" = true ∧
    detectType benchSchema = "SCAP" ∧ "SCAP" ≠ "XCCDF" :=
  ⟨by decide, by decide, by decide⟩

/-- C2 amended: with root `Benchmark`, the detector returns `XCCDF` exactly
when no declared namespace URI contains either SCAP namespace fragment
(`http://scap.nist.gov`, `http://checklists.nist.gov/xccdf`); otherwise the
first-registered SCAP pattern wins. Matching is first-in-registration-order
with no confidence values. -/
theorem C2_benchmark_detects_xccdf_when_no_scap_namespace (s : DocumentSchema)
    (h1 : s.root_element = "Benchmark")
    (h2 : s.namespaces.all (fun kv => !containsSub "http://scap.nist.gov" kv.2 &&
      !containsSub "http://checklists.nist.gov/xccdf" kv.2) = true) :
    detectType s = "XCCDF" := by
  have hns : (["http://scap.nist.gov", "http://checklists.nist.gov/xccdf"].any
      (fun pns => s.namespaces.any (fun kv => containsSub pns kv.2))) = false := by
    rw [List.any_eq_false]
    intro pns hp
    rw [Bool.not_eq_true, List.any_eq_false]
    intro kv hkv
    have hk := List.all_eq_true.mp h2 kv hkv
    rw [Bool.and_eq_true, Bool.not_eq_true', Bool.not_eq_true'] at hk
    rw [Bool.not_eq_true]
    simp only [List.mem_cons, List.not_mem_nil, or_false] at hp
    rcases hp with rfl | rfl
    · exact hk.1
    · exact hk.2
  unfold detectType DOCUMENT_PATTERNS
  rw [detectScan]
  rw [if_neg (by rw [h1]; decide), if_neg (by rw [hns]; simp)]
  rw [detectScan]
  rw [if_pos (by rw [h1]; decide)]

/-- C2 witness: `benchSchema2` has root `Benchmark` and a namespace URI
containing `checklists.nist.gov/xccdf` (so the original claim's premise
holds) while containing neither SCAP fragment; detection yields `XCCDF`. -/
theorem C2_witness :
    benchSchema2.root_element = "Benchmark" ∧
    containsSub "checklists.nist.gov/xccdf" "https://checklists.nist.gov/xccdf" = true ∧
    (benchSchema2.namespaces.all (fun kv => !containsSub "http://scap.nist.gov" kv.2 &&
      !containsSub "http://checklists.nist.gov/xccdf" kv.2) = true) ∧
    detectType benchSchema2 = "XCCDF" :=
  ⟨rfl, by decide, by decide,
    C2_benchmark_detects_xccdf_when_no_scap_namespace benchSchema2 rfl (by decide)⟩

/-! ### Concrete chunker counterexamples (C3, C6, C7) -/

/-- C3 counterexample: on `<r><a /><b /><c /><d /></r>` (whose tag `r` is a
major element) the element-based chunker emits a single chunk whose content
is not the document: at every `end` event it appends the full `ET.tostring`
serialization of the ended element, so content of nested elements is
duplicated. No overlap removal can repair a single chunk, so concatenation
does not reproduce the source. -/
theorem C3_counterexample_element_path_not_coverage :
    reconstructOverlap 200 (chunkByElements rawR docR schemaR 8000 200) ≠ rawR := by
  decide

/-- C6 counterexample: on content `abcde</longname>xyz` with
`max_chunk_size = 8`, `overlap = 2`, the size-based chunker's first chunk
has 16 bytes — twice the bound — while its `elements_contained` is empty,
not a single oversized element: the backward search for `</` is followed by
an unbounded forward `find('>')`, which extends the cut past the window. -/
theorem C6_counterexample_oversized_not_single_element :
    ((chunkBySize ("abcde</longname>xyz".toList) 8 2).map
      (fun cs => cs.map (fun c => (c.size_bytes, c.elements_contained)))) =
      some [(16, []), (5, [])] ∧ 8 < 16 :=
  ⟨by decide, by decide⟩

/-- C7 counterexample: size-based chunk ids are positional
(`chunk_{num:03d}`), not content-derived: on `ababab` with
`max_chunk_size = 4`, `overlap = 2` the two emitted chunks have
byte-identical content `abab` yet distinct ids. -/
theorem C7_counterexample_size_ids_positional :
    ((chunkBySize ("ababab".toList) 4 2).map
      (fun cs => cs.map (fun c => (String.mk c.content, c.chunk_id)))) =
      some [("abab", "chunk_000"), ("abab", "chunk_001")] ∧
    "chunk_000" ≠ "chunk_001" :=
  ⟨by decide, by decide⟩

/-- C5 counterexample: after accumulating `<r><i v="0" /> … <i v="5" /></r>`
with `max_samples = 5`, the sampled value set of attribute `v` of tag `i`
holds 6 entries: `startElement` (line 121) adds every value (truncated to 50
chars) with no cap on the number of sampled values per attribute. -/
theorem C5_counterexample_attr_samples_unbounded :
    ((lookupTag (runHandler 5 200 (saxEventsOf docI6)).elements "i").map
      (fun p => p.attributes.map (fun kv => (kv.1, kv.2.length)))) =
      some [("v", 6)] ∧ 5 < 6 :=
  ⟨by decide, by decide⟩

/-! ### Sampling bounds of the accumulator (C5) -/

theorem strTake_length_le (s : String) (n : Nat) : (strTake s n).length ≤ n := by
  show (s.toList.take n).length ≤ n
  exact List.length_take_le n s.toList

theorem startNamespace_elements (st : HandlerState) (pfx uri : String) :
    (XMLStreamHandler.startNamespace st pfx uri).elements = st.elements := by
  unfold XMLStreamHandler.startNamespace
  split <;> rfl

theorem sampleInv_fresh (maxSamples : Nat) : sampleInv maxSamples freshXMLElement := by
  refine ⟨by simp [freshXMLElement], ?_⟩
  intro kv hkv
  simp [freshXMLElement] at hkv

theorem TableInv_getElem {maxSamples : Nat} {els : List (String × XMLElement)}
    (h : TableInv maxSamples els) (t : String) : sampleInv maxSamples (getElem els t) := by
  unfold getElem
  cases hl : lookupTag els t with
  | none => exact sampleInv_fresh _
  | some p => exact h _ _ hl

theorem TableInv_setTag {maxSamples : Nat} {els : List (String × XMLElement)}
    (t : String) (p : XMLElement) (h : TableInv maxSamples els)
    (hp : sampleInv maxSamples p) : TableInv maxSamples (setTag els t p) := by
  intro t' p' hl
  by_cases ht : t' = t
  · subst ht
    rw [lookupTag_setTag_self] at hl
    cases hl
    exact hp
  · rw [lookupTag_setTag_ne _ _ _ _ ht] at hl
    exact h _ _ hl

theorem attrInsert_bound (k v : String) (hv : v.length ≤ 50) :
    ∀ am, (∀ kv ∈ am, ∀ u ∈ kv.2, u.length ≤ 50) →
      ∀ kv ∈ attrInsert am k v, ∀ u ∈ kv.2, u.length ≤ 50 := by
  intro am
  induction am with
  | nil =>
    intro _ kv hkv u hu
    simp only [attrInsert, List.mem_singleton] at hkv
    subst hkv
    simp only [List.mem_singleton] at hu
    subst hu
    exact hv
  | cons kw rest ih =>
    obtain ⟨k', vs⟩ := kw
    intro h kv hkv u hu
    by_cases hk : k' = k
    · rw [show attrInsert ((k', vs) :: rest) k v =
        (k', insertSet v vs) :: rest by simp [attrInsert, hk]] at hkv
      rcases List.mem_cons.mp hkv with rfl | hm
      · rcases (mem_insertSet v u vs).mp hu with rfl | hvs
        · exact hv
        · exact h (k', vs) (List.mem_cons_self _ _) u hvs
      · exact h kv (List.mem_cons_of_mem _ hm) u hu
    · rw [show attrInsert ((k', vs) :: rest) k v =
        (k', vs) :: attrInsert rest k v by simp [attrInsert, hk]] at hkv
      rcases List.mem_cons.mp hkv with rfl | hm
      · exact h (k', vs) (List.mem_cons_self _ _) u hu
      · exact ih (fun kv2 h2 => h kv2 (List.mem_cons_of_mem _ h2)) kv hm u hu

theorem attrStep_TableInv {maxSamples : Nat} (localName : String)
    {m : List (String × XMLElement)} (av : String × String)
    (h : TableInv maxSamples m) : TableInv maxSamples (attrStep localName m av) := by
  unfold attrStep
  exact TableInv_setTag _ _ h
    ⟨(TableInv_getElem h localName).1,
      attrInsert_bound _ _ (strTake_length_le _ _) _ (TableInv_getElem h localName).2⟩

theorem attrsFold_TableInv {maxSamples : Nat} (localName : String)
    (attrs : List (String × String)) :
    ∀ m, TableInv maxSamples m →
      TableInv maxSamples (attrs.foldl (attrStep localName) m) := by
  induction attrs with
  | nil => intro m h; exact h
  | cons av rest ih =>
    intro m h
    rw [List.foldl_cons]
    exact ih _ (attrStep_TableInv localName av h)

theorem startElement_TableInv {maxSamples : Nat} (st : HandlerState)
    (name : String) (attrs : List (String × String))
    (h : TableInv maxSamples st.elements) :
    TableInv maxSamples (XMLStreamHandler.startElement st name attrs).elements := by
  unfold XMLStreamHandler.startElement
  dsimp only
  apply attrsFold_TableInv
  have h1 : TableInv maxSamples
      (setTag st.elements (splitQName name).2 (startProfile st name)) :=
    TableInv_setTag _ _ h ⟨(TableInv_getElem h _).1, (TableInv_getElem h _).2⟩
  cases hpar : st.element_stack.getLast? with
  | none => exact h1
  | some parentTag =>
    unfold addChildTo
    exact TableInv_setTag _ _ h1
      ⟨(TableInv_getElem h1 _).1, (TableInv_getElem h1 _).2⟩

theorem endElement_TableInv {maxSamples : Nat} (maxTextLength : Nat)
    (st : HandlerState) (name : String) (h : TableInv maxSamples st.elements) :
    TableInv maxSamples
      (XMLStreamHandler.endElement maxSamples maxTextLength st name).elements := by
  unfold XMLStreamHandler.endElement
  dsimp only
  split
  · split
    · next hlen =>
      exact TableInv_setTag _ _ h
        ⟨by
          have := (TableInv_getElem h (afterFirstColon name)).1
          simp only [List.length_append, List.length_singleton]
          omega,
         (TableInv_getElem h _).2⟩
    · exact h
  · exact h

theorem runHandler_TableInv (maxSamples maxTextLength : Nat)
    (events : List SaxEvent) :
    ∀ st, TableInv maxSamples st.elements →
      TableInv maxSamples
        ((events.foldl (stepEvent maxSamples maxTextLength) st).elements) := by
  induction events with
  | nil => intro st h; exact h
  | cons e rest ih =>
    intro st h
    rw [List.foldl_cons]
    apply ih
    cases e with
    | startEl name attrs => exact startElement_TableInv st name attrs h
    | endEl name => exact endElement_TableInv maxTextLength st name h
    | characters content => exact h
    | prefixMapping pfx uri =>
      show TableInv maxSamples (XMLStreamHandler.startNamespace st pfx uri).elements
      rw [startNamespace_elements]
      exact h

/-- C5 amended: after accumulation over any event sequence, every tag's
`text_samples` list holds at most `max_samples` entries and every sampled
attribute value is truncated to at most 50 characters; the claim's bound of
`maxSamplesPerTag` entries per attribute value set does not hold (see the
counterexample): the value sets grow without bound. -/
theorem C5_text_samples_capped_values_truncated (maxSamples maxTextLength : Nat)
    (events : List SaxEvent) (tag : String) :
    ((lookupTag (runHandler maxSamples maxTextLength events).elements tag).all
      (fun p => decide (p.text_samples.length ≤ maxSamples) &&
        p.attributes.all (fun kv => kv.2.all (fun v => decide (v.length ≤ 50))))) = true := by
  have hInv : TableInv maxSamples (runHandler maxSamples maxTextLength events).elements :=
    runHandler_TableInv maxSamples maxTextLength events initHandlerState
      (fun t p hl => by simp [initHandlerState, lookupTag] at hl)
  cases hl : lookupTag (runHandler maxSamples maxTextLength events).elements tag with
  | none => rfl
  | some p =>
    have hp := hInv _ _ hl
    simp only [Option.all]
    rw [Bool.and_eq_true]
    refine ⟨decide_eq_true hp.1, ?_⟩
    rw [List.all_eq_true]
    intro kv hkv
    rw [List.all_eq_true]
    intro v hv
    exact decide_eq_true (hp.2 kv hkv v hv)

/-! ### Parent/child relation symmetry (C8) -/

theorem childElems_setTag (els : List (String × XMLElement)) (t : String)
    (p : XMLElement) (T : String) :
    childElems (setTag els t p) T = if T = t then p.child_elements else childElems els T := by
  by_cases h : T = t
  · subst h
    simp [childElems, getElem_setTag_self]
  · simp [childElems, getElem_setTag_ne _ _ _ _ h, h]

theorem parentElems_setTag (els : List (String × XMLElement)) (t : String)
    (p : XMLElement) (T : String) :
    parentElems (setTag els t p) T =
      if T = t then p.parent_elements else parentElems els T := by
  by_cases h : T = t
  · subst h
    simp [parentElems, getElem_setTag_self]
  · simp [parentElems, getElem_setTag_ne _ _ _ _ h, h]

theorem childElems_attrStep (localName : String) (m : List (String × XMLElement))
    (av : String × String) (T : String) :
    childElems (attrStep localName m av) T = childElems m T := by
  unfold attrStep
  rw [childElems_setTag]
  by_cases h : T = localName
  · subst h
    simp [childElems]
  · simp [h]

theorem parentElems_attrStep (localName : String) (m : List (String × XMLElement))
    (av : String × String) (T : String) :
    parentElems (attrStep localName m av) T = parentElems m T := by
  unfold attrStep
  rw [parentElems_setTag]
  by_cases h : T = localName
  · subst h
    simp [parentElems]
  · simp [h]

theorem childElems_attrsFold (localName : String) (attrs : List (String × String)) :
    ∀ m T, childElems (attrs.foldl (attrStep localName) m) T = childElems m T := by
  induction attrs with
  | nil => intro m T; rfl
  | cons av rest ih =>
    intro m T
    rw [List.foldl_cons, ih, childElems_attrStep]

theorem parentElems_attrsFold (localName : String) (attrs : List (String × String)) :
    ∀ m T, parentElems (attrs.foldl (attrStep localName) m) T = parentElems m T := by
  induction attrs with
  | nil => intro m T; rfl
  | cons av rest ih =>
    intro m T
    rw [List.foldl_cons, ih, parentElems_attrStep]

theorem childElems_setTag_startProfile (st : HandlerState) (name : String)
    (T : String) :
    childElems (setTag st.elements (splitQName name).2 (startProfile st name)) T =
      childElems st.elements T := by
  rw [childElems_setTag]
  by_cases h : T = (splitQName name).2
  · subst h
    rw [if_pos rfl]
    rfl
  · rw [if_neg h]

theorem parentElems_setTag_startProfile (st : HandlerState) (name : String)
    (T : String) :
    parentElems (setTag st.elements (splitQName name).2 (startProfile st name)) T =
      if T = (splitQName name).2 then
        (match st.element_stack.getLast? with
         | some parentTag => insertSet parentTag (parentElems st.elements T)
         | none => parentElems st.elements T)
      else parentElems st.elements T := by
  rw [parentElems_setTag]
  by_cases h : T = (splitQName name).2
  · subst h
    rw [if_pos rfl, if_pos rfl]
    rfl
  · rw [if_neg h, if_neg h]

theorem childElems_addChild (els : List (String × XMLElement))
    (parentTag localName T : String) :
    childElems (addChildTo els parentTag localName) T =
      if T = parentTag then insertSet localName (childElems els parentTag)
      else childElems els T := by
  unfold addChildTo
  rw [childElems_setTag]
  by_cases h : T = parentTag
  · subst h
    rw [if_pos rfl, if_pos rfl]
    rfl
  · rw [if_neg h, if_neg h]

theorem parentElems_addChild (els : List (String × XMLElement))
    (parentTag localName T : String) :
    parentElems (addChildTo els parentTag localName) T = parentElems els T := by
  unfold addChildTo
  rw [parentElems_setTag]
  by_cases h : T = parentTag
  · subst h
    rw [if_pos rfl]
    rfl
  · rw [if_neg h]

/-- After `startElement`, the child set of `T` gains the new element's local
name exactly when `T` is the parent on top of the stack. -/
theorem childElems_start (st : HandlerState) (name : String)
    (attrs : List (String × String)) (T : String) :
    childElems (XMLStreamHandler.startElement st name attrs).elements T =
      match st.element_stack.getLast? with
      | none => childElems st.elements T
      | some parentTag =>
        if T = parentTag then
          insertSet (splitQName name).2 (childElems st.elements T)
        else childElems st.elements T := by
  unfold XMLStreamHandler.startElement
  dsimp only
  rw [childElems_attrsFold]
  cases hpar : st.element_stack.getLast? with
  | none => exact childElems_setTag_startProfile st name T
  | some parentTag =>
    dsimp only
    rw [childElems_addChild]
    by_cases h : T = parentTag
    · subst h
      rw [if_pos rfl, if_pos rfl, childElems_setTag_startProfile]
    · rw [if_neg h, if_neg h, childElems_setTag_startProfile]

/-- After `startElement`, the parent set of `T` gains the top-of-stack
parent exactly when `T` is the new element's local name and the stack is
non-empty. -/
theorem parentElems_start (st : HandlerState) (name : String)
    (attrs : List (String × String)) (T : String) :
    parentElems (XMLStreamHandler.startElement st name attrs).elements T =
      match st.element_stack.getLast? with
      | none => parentElems st.elements T
      | some parentTag =>
        if T = (splitQName name).2 then
          insertSet parentTag (parentElems st.elements T)
        else parentElems st.elements T := by
  unfold XMLStreamHandler.startElement
  dsimp only
  rw [parentElems_attrsFold]
  cases hpar : st.element_stack.getLast? with
  | none =>
    dsimp only
    rw [parentElems_setTag_startProfile, hpar]
    split <;> rfl
  | some parentTag =>
    dsimp only
    rw [parentElems_addChild, parentElems_setTag_startProfile, hpar]

theorem childElems_end (maxSamples maxTextLength : Nat) (st : HandlerState)
    (name : String) (T : String) :
    childElems (XMLStreamHandler.endElement maxSamples maxTextLength st name).elements T =
      childElems st.elements T := by
  unfold XMLStreamHandler.endElement
  dsimp only
  split
  · split
    · rw [childElems_setTag]
      by_cases h : T = afterFirstColon name
      · subst h
        simp [childElems]
      · simp [h]
    · rfl
  · rfl

theorem parentElems_end (maxSamples maxTextLength : Nat) (st : HandlerState)
    (name : String) (T : String) :
    parentElems (XMLStreamHandler.endElement maxSamples maxTextLength st name).elements T =
      parentElems st.elements T := by
  unfold XMLStreamHandler.endElement
  dsimp only
  split
  · split
    · rw [parentElems_setTag]
      by_cases h : T = afterFirstColon name
      · subst h
        simp [parentElems]
      · simp [h]
    · rfl
  · rfl

theorem symm_start (st : HandlerState) (name : String)
    (attrs : List (String × String)) (h : SymmInv st.elements) :
    SymmInv (XMLStreamHandler.startElement st name attrs).elements := by
  intro A B
  rw [childElems_start, parentElems_start]
  cases hpar : st.element_stack.getLast? with
  | none => exact h A B
  | some parentTag =>
    dsimp only
    by_cases hA : A = parentTag <;> by_cases hB : B = (splitQName name).2
    · rw [if_pos hA, if_pos hB]
      rw [mem_insertSet, mem_insertSet]
      constructor
      · intro _
        exact Or.inl hA
      · intro _
        exact Or.inl hB
    · rw [if_pos hA, if_neg hB]
      rw [mem_insertSet]
      constructor
      · rintro (rfl | hc)
        · exact absurd rfl hB
        · exact (h A B).mp hc
      · intro hp
        exact Or.inr ((h A B).mpr hp)
    · rw [if_neg hA, if_pos hB]
      rw [mem_insertSet]
      constructor
      · intro hc
        exact Or.inr ((h A B).mp hc)
      · rintro (rfl | hp)
        · exact absurd rfl hA
        · exact (h A B).mpr hp
    · rw [if_neg hA, if_neg hB]
      exact h A B

theorem symm_fold (maxSamples maxTextLength : Nat) (events : List SaxEvent) :
    ∀ st, SymmInv st.elements →
      SymmInv ((events.foldl (stepEvent maxSamples maxTextLength) st).elements) := by
  induction events with
  | nil => intro st h; exact h
  | cons e rest ih =>
    intro st h
    rw [List.foldl_cons]
    apply ih
    cases e with
    | startEl name attrs => exact symm_start st name attrs h
    | endEl name =>
      show SymmInv (XMLStreamHandler.endElement maxSamples maxTextLength st name).elements
      intro A B
      rw [childElems_end, parentElems_end]
      exact h A B
    | characters content => exact h
    | prefixMapping pfx uri =>
      show SymmInv (XMLStreamHandler.startNamespace st pfx uri).elements
      rw [startNamespace_elements]
      exact h

/-- C8: for every event sequence and all tags `A`, `B`, the accumulated
table has `B` in the child set of `A` exactly when `A` is in the parent set
of `B`: `startElement` (lines 111–115) registers both directions of the
relation in the same step, and no other handler code touches either set. -/
theorem C8_parent_child_symmetry (maxSamples maxTextLength : Nat)
    (events : List SaxEvent) (A B : String) :
    (B ∈ childElems (runHandler maxSamples maxTextLength events).elements A ↔
      A ∈ parentElems (runHandler maxSamples maxTextLength events).elements B) := by
  refine symm_fold maxSamples maxTextLength events initHandlerState ?_ A B
  intro A' B'
  simp [childElems, parentElems, initHandlerState, getElem, lookupTag, freshXMLElement]

/-! ### Unbounded recursion of the structure tree builder (C4) -/

theorem childFold_none_of_mem (f : String → Option StructNode)
    (els : List (String × XMLElement)) (tag : String)
    (hl : (lookupTag els tag).isSome) (hf : f tag = none) :
    ∀ l, tag ∈ l → childFold f els l = none := by
  intro l
  induction l with
  | nil => intro hmem; cases hmem
  | cons c rest ih =>
    intro hmem
    rcases List.mem_cons.mp hmem with rfl | hcr
    · obtain ⟨p, hp⟩ := Option.isSome_iff_exists.mp hl
      unfold childFold
      rw [hp, hf]
    · unfold childFold
      cases hlc : lookupTag els c with
      | none => exact ih hcr
      | some q =>
        rw [ih hcr]
        cases f c <;> rfl

theorem buildSubtree_self_child_none (els : List (String × XMLElement))
    (tag : String) (p : XMLElement) (hl : lookupTag els tag = some p)
    (hmem : tag ∈ p.child_elements) :
    ∀ fuel, buildSubtree els fuel tag = none := by
  intro fuel
  induction fuel with
  | zero => rfl
  | succ n ih =>
    show buildSubtree els (n + 1) tag = none
    unfold buildSubtree
    rw [hl]
    dsimp only
    rw [childFold_none_of_mem (fun c => buildSubtree els n c) els tag
      (by rw [hl]; rfl) ih p.child_elements hmem]

/-- C4: the claim states the structure tree builder caps its recursion at
`statistics.max_depth + 1` and reports exceeding it as a build error. The
source `_build_subtree` (lines 544–560; likewise in
`xml_schema_analyzer.py`) has no depth guard at all: on the element table of
the well-formed document `<r><a><a /></a></r>` — where tag `a` is in its own
child-tag set — the recursion completes under no finite budget whatsoever
(CPython dies with `RecursionError` at its interpreter limit instead of
returning a build error). -/
theorem C4_build_subtree_recursion_unbounded :
    ∀ fuel, buildSubtree tableRAA fuel "r" = none := by
  have hA : ∀ fuel, buildSubtree tableRAA fuel "a" = none :=
    buildSubtree_self_child_none tableRAA "a"
      ((lookupTag tableRAA "a").getD freshXMLElement) (by decide) (by decide)
  intro fuel
  cases fuel with
  | zero => rfl
  | succ n =>
    show buildSubtree tableRAA (n + 1) "r" = none
    unfold buildSubtree
    rw [show lookupTag tableRAA "r" =
      some ((lookupTag tableRAA "r").getD freshXMLElement) from by decide]
    dsimp only
    rw [childFold_none_of_mem (fun c => buildSubtree tableRAA n c) tableRAA "a"
      (by decide) (hA n)
      ((lookupTag tableRAA "r").getD freshXMLElement).child_elements (by decide)]

/-! ### Element-path chunk ids (C7) -/

theorem chunkIdOk_mkElemChunk (content : Str) (chunkEls : List String)
    (lineStart : Nat) (summary : String) :
    chunkIdOk (mkElemChunk content chunkEls lineStart summary) = true := by
  simp [chunkIdOk, mkElemChunk]

theorem elemChunkStep_ids (maxChunkSize : Nat) (major : List String)
    (st : ElemChunkState) (ev : IterEvent) (h : st.chunks.all chunkIdOk = true) :
    (elemChunkStep maxChunkSize major st ev).chunks.all chunkIdOk = true := by
  unfold elemChunkStep
  dsimp only
  repeat' split
  all_goals
    first
      | exact h
      | (rw [List.all_append, h]
         simp [chunkIdOk_mkElemChunk])

theorem elemFold_ids (maxChunkSize : Nat) (major : List String)
    (evs : List IterEvent) :
    ∀ st : ElemChunkState, st.chunks.all chunkIdOk = true →
      ((evs.foldl (elemChunkStep maxChunkSize major) st).chunks.all chunkIdOk) = true := by
  induction evs with
  | nil => intro st h; exact h
  | cons ev rest ih =>
    intro st h
    rw [List.foldl_cons]
    exact ih _ (elemChunkStep_ids maxChunkSize major st ev h)

/-- C7 amended: on the element-based path (at least one major element) every
emitted chunk's id is the md5-derived digest of that chunk's own content
bytes, so byte-identical content receives equal ids independently of
position. On the size-based fallback path this fails: ids there are
positional `chunk_{num:03d}` strings (see the counterexample). -/
theorem C7_element_path_ids_content_derived (raw : Str) (doc : XTree)
    (schema : DocumentSchema) (maxChunkSize overlapSize : Nat)
    (h : majorElements schema ≠ []) :
    (chunkByElements raw doc schema maxChunkSize overlapSize).all chunkIdOk = true := by
  unfold chunkByElements
  rw [if_neg h]
  dsimp only
  have hf := elemFold_ids maxChunkSize (majorElements schema) (iterEventsOf doc)
    { chunks := [], current := [], chunkEls := [], lineStart := 1 } rfl
  split
  · rw [List.all_append, hf]
    simp [chunkIdOk_mkElemChunk]
  · exact hf

/-- C7 witness: `docR` has a major element, and every chunk the element path
emits for it carries the content-derived id. -/
theorem C7_witness :
    (majorElements schemaR ≠ []) ∧
      (chunkByElements rawR docR schemaR 8000 200).all chunkIdOk = true :=
  ⟨by decide,
    C7_element_path_ids_content_derived rawR docR schemaR 8000 200 (by decide)⟩

/-! ### Size-based chunking: window-end geometry (C3, C6) -/

theorem findGt_spec (content : Str) (pos j : Nat)
    (h : findGt content pos = some j) :
    pos ≤ j ∧ j < content.length ∧ (content.drop j).head? = some '>' := by
  unfold findGt at h
  cases hl : (List.range content.length).filter (fun j =>
      decide (pos ≤ j) && decide ((content.drop j).head? = some '>')) with
  | nil => rw [hl] at h; cases h
  | cons a t =>
    rw [hl] at h
    simp only [List.head?] at h
    cases h
    have hm : j ∈ (List.range content.length).filter (fun j =>
        decide (pos ≤ j) && decide ((content.drop j).head? = some '>')) := by
      rw [hl]; exact List.mem_cons_self _ _
    have hf := List.mem_filter.mp hm
    have hr := List.mem_range.mp hf.1
    have hc := hf.2
    rw [Bool.and_eq_true, decide_eq_true_eq, decide_eq_true_eq] at hc
    exact ⟨hc.1, hr, hc.2⟩

theorem rfindCloseStart_spec (content : Str) (start stop i : Nat)
    (h : rfindCloseStart content start stop = some i) :
    start ≤ i ∧ i + 2 ≤ stop := by
  unfold rfindCloseStart at h
  have hm := List.mem_of_getLast?_eq_some h
  have hf := List.mem_filter.mp hm
  have hc := hf.2
  rw [Bool.and_eq_true, Bool.and_eq_true, decide_eq_true_eq, decide_eq_true_eq] at hc
  exact ⟨hc.1.1, hc.1.2⟩

/-- Geometry of the window end: either it is the untouched tentative end
`min(start + max_chunk_size, len)`, or it was extended to just past a `>`
strictly beyond the window's midpoint. -/
theorem chunkEnd_cases (content : Str) (maxChunkSize s : Nat) :
    chunkEnd content maxChunkSize s = min (s + maxChunkSize) content.length ∨
      (s + maxChunkSize / 2 + 2 ≤ chunkEnd content maxChunkSize s ∧
       chunkEnd content maxChunkSize s ≤ content.length ∧
       (content.drop (chunkEnd content maxChunkSize s - 1)).head? = some '>') := by
  unfold chunkEnd
  dsimp only
  split
  · split
    · next i hrf =>
      split
      · next hguard =>
        split
        · next j hfg =>
          obtain ⟨hij, hjlen, hgt⟩ := findGt_spec content i j hfg
          right
          refine ⟨by omega, by omega, ?_⟩
          simpa using hgt
        · left; rfl
      · left; rfl
    · left; rfl
  · left; rfl

theorem chunkEnd_le_length (content : Str) (maxChunkSize s : Nat) :
    chunkEnd content maxChunkSize s ≤ content.length := by
  rcases chunkEnd_cases content maxChunkSize s with h | h
  · omega
  · exact h.2.1

theorem chunkEnd_progress (content : Str) (maxChunkSize overlapSize s : Nat)
    (hov : overlapSize < maxChunkSize / 2) (_hs : s < content.length)
    (he : chunkEnd content maxChunkSize s < content.length) :
    s + overlapSize < chunkEnd content maxChunkSize s := by
  rcases chunkEnd_cases content maxChunkSize s with h | h
  · have hd : maxChunkSize / 2 ≤ maxChunkSize := Nat.div_le_self _ _
    omega
  · omega

theorem chunkEnd_gt (content : Str) (maxChunkSize s : Nat)
    (hmax : 0 < maxChunkSize) (hs : s < content.length) :
    s < chunkEnd content maxChunkSize s := by
  rcases chunkEnd_cases content maxChunkSize s with h | h
  · omega
  · omega

/-- The window starting right after an interior cut (at `end - overlap`) is
strictly longer than the overlap: its own end clears `overlap` by at least
one position. -/
theorem chunkEnd_after_overlap (content : Str) (maxChunkSize overlapSize s : Nat)
    (hov : overlapSize < maxChunkSize / 2) (hs : s < content.length)
    (he : chunkEnd content maxChunkSize s < content.length) :
    (chunkEnd content maxChunkSize s - overlapSize) + overlapSize <
      chunkEnd content maxChunkSize (chunkEnd content maxChunkSize s - overlapSize) := by
  have hprog := chunkEnd_progress content maxChunkSize overlapSize s hov hs he
  have hd : maxChunkSize / 2 ≤ maxChunkSize := Nat.div_le_self _ _
  rcases chunkEnd_cases content maxChunkSize
    (chunkEnd content maxChunkSize s - overlapSize) with h | h
  · omega
  · omega

theorem mkSizeChunk_content (content : Str) (maxChunkSize s num : Nat) :
    (mkSizeChunk content maxChunkSize s num).content =
      (content.drop s).take (chunkEnd content maxChunkSize s - s) := rfl

/-! ### Size-based chunking: coverage (C3) -/

theorem aux_coverage (content : Str) (maxChunkSize overlapSize : Nat)
    (hov : overlapSize < maxChunkSize / 2) :
    ∀ fuel s num cs,
      chunkBySizeAux content maxChunkSize overlapSize fuel s num = some cs →
      (content.length ≤ s → cs = []) ∧
      (s < content.length →
        reconstructOverlap overlapSize cs = content.drop s ∧
        ∃ rest, cs = mkSizeChunk content maxChunkSize s num :: rest) := by
  intro fuel
  induction fuel with
  | zero =>
    intro s num cs h
    simp [chunkBySizeAux] at h
  | succ n ih =>
    intro s num cs h
    unfold chunkBySizeAux at h
    dsimp only at h
    by_cases hs : s < content.length
    · rw [if_pos hs] at h
      by_cases he : chunkEnd content maxChunkSize s < content.length
      · rw [if_pos he] at h
        cases haux : chunkBySizeAux content maxChunkSize overlapSize n
            (chunkEnd content maxChunkSize s - overlapSize) (num + 1) with
        | none =>
          rw [haux] at h
          cases h
        | some rest =>
          rw [haux] at h
          dsimp only at h
          obtain rfl := (Option.some.inj h).symm
          constructor
          · intro hle
            exact absurd hs (Nat.not_lt.mpr hle)
          · intro _
            refine ⟨?_, rest, rfl⟩
            have hs' : chunkEnd content maxChunkSize s - overlapSize < content.length := by
              have := chunkEnd_le_length content maxChunkSize s
              omega
            obtain ⟨hrec, rest', hrest'⟩ := (ih _ _ _ haux).2 hs'
            subst hrest'
            have hprog := chunkEnd_progress content maxChunkSize overlapSize s hov hs he
            have hle' := chunkEnd_le_length content maxChunkSize
              (chunkEnd content maxChunkSize s - overlapSize)
            have hao := chunkEnd_after_overlap content maxChunkSize overlapSize s hov hs he
            have hlen0 : overlapSize ≤
                ((mkSizeChunk content maxChunkSize
                  (chunkEnd content maxChunkSize s - overlapSize) (num + 1)).content).length := by
              rw [mkSizeChunk_content, List.length_take, List.length_drop]
              omega
            simp only [reconstructOverlap] at hrec ⊢
            rw [List.map_cons, List.flatten_cons]
            have key : (mkSizeChunk content maxChunkSize
                  (chunkEnd content maxChunkSize s - overlapSize) (num + 1)).content.drop
                    overlapSize ++
                (rest'.map (fun d => d.content.drop overlapSize)).flatten =
                (content.drop (chunkEnd content maxChunkSize s - overlapSize)).drop
                  overlapSize := by
              rw [← hrec, List.drop_append_of_le_length hlen0]
            rw [key, List.drop_drop]
            have heq : chunkEnd content maxChunkSize s - overlapSize + overlapSize =
                chunkEnd content maxChunkSize s := by omega
            rw [heq, mkSizeChunk_content]
            have hdd : content.drop (chunkEnd content maxChunkSize s) =
                (content.drop s).drop (chunkEnd content maxChunkSize s - s) := by
              rw [List.drop_drop]
              congr 1
              omega
            rw [hdd, List.take_append_drop]
      · rw [if_neg he] at h
        obtain rfl := (Option.some.inj h).symm
        constructor
        · intro hle
          exact absurd hs (Nat.not_lt.mpr hle)
        · intro _
          have heq : chunkEnd content maxChunkSize s = content.length := by
            have := chunkEnd_le_length content maxChunkSize s
            omega
          refine ⟨?_, [], rfl⟩
          simp only [reconstructOverlap, List.map_nil, List.flatten_nil, List.append_nil]
          rw [mkSizeChunk_content, heq]
          apply List.take_of_length_le
          rw [List.length_drop]
    · rw [if_neg hs] at h
      obtain rfl := (Option.some.inj h).symm
      exact ⟨fun _ => rfl, fun hlt => absurd hlt hs⟩

theorem aux_isSome (content : Str) (maxChunkSize overlapSize : Nat)
    (hov : overlapSize < maxChunkSize / 2) :
    ∀ fuel s num, content.length - s < fuel →
      (chunkBySizeAux content maxChunkSize overlapSize fuel s num).isSome = true := by
  intro fuel
  induction fuel with
  | zero =>
    intro s num h
    exact absurd h (Nat.not_lt_zero _)
  | succ n ih =>
    intro s num h
    unfold chunkBySizeAux
    dsimp only
    by_cases hs : s < content.length
    · rw [if_pos hs]
      by_cases he : chunkEnd content maxChunkSize s < content.length
      · rw [if_pos he]
        have hprog := chunkEnd_progress content maxChunkSize overlapSize s hov hs he
        have hrec := ih (chunkEnd content maxChunkSize s - overlapSize) (num + 1) (by omega)
        cases haux : chunkBySizeAux content maxChunkSize overlapSize n
            (chunkEnd content maxChunkSize s - overlapSize) (num + 1) with
        | none =>
          rw [haux] at hrec
          cases hrec
        | some rest => rfl
      · rw [if_neg he]
        rfl
    · rw [if_neg hs]
      rfl

/-- C3 amended: on the size-based path, with the overlap smaller than half
the window (true of the defaults, 200 < 4000), concatenating the chunk
contents after dropping the declared overlap from every chunk after the
first reproduces the source byte-for-byte. On the element-based path this
fails (see the counterexample): that path re-serializes elements and
duplicates nested content. -/
theorem C3_size_path_coverage (content : Str) (maxChunkSize overlapSize : Nat)
    (hov : overlapSize < maxChunkSize / 2) :
    (chunkBySize content maxChunkSize overlapSize).map
      (reconstructOverlap overlapSize) = some content := by
  unfold chunkBySize
  have hsome := aux_isSome content maxChunkSize overlapSize hov
    (content.length + 1) 0 0 (by omega)
  cases haux : chunkBySizeAux content maxChunkSize overlapSize
      (content.length + 1) 0 0 with
  | none =>
    rw [haux] at hsome
    cases hsome
  | some cs =>
    simp only [Option.map]
    have hcov := aux_coverage content maxChunkSize overlapSize hov _ _ _ _ haux
    by_cases h0 : 0 < content.length
    · have hr := (hcov.2 h0).1
      rw [List.drop_zero] at hr
      rw [hr]
    · have hnil : content = [] := List.eq_nil_of_length_eq_zero (by omega)
      have hcs : cs = [] := hcov.1 (by omega)
      rw [hcs, hnil]
      rfl

/-- C3 witness: concrete coverage run at `max_chunk_size = 8`,
`overlap = 2` on `abcde</longname>xyz`. -/
theorem C3_witness :
    (2 < 8 / 2) ∧
      (chunkBySize ("abcde</longname>xyz".toList) 8 2).map (reconstructOverlap 2) =
        some ("abcde</longname>xyz".toList) :=
  ⟨by decide, C3_size_path_coverage ("abcde</longname>xyz".toList) 8 2 (by decide)⟩

/-! ### Size-based chunking: size bound geometry (C6) -/

theorem aux_shape (content : Str) (maxChunkSize overlapSize : Nat) :
    ∀ fuel s num cs,
      chunkBySizeAux content maxChunkSize overlapSize fuel s num = some cs →
      ∀ c ∈ cs, ∃ s' num', s' < content.length ∧
        c = mkSizeChunk content maxChunkSize s' num' := by
  intro fuel
  induction fuel with
  | zero =>
    intro s num cs h
    simp [chunkBySizeAux] at h
  | succ n ih =>
    intro s num cs h
    unfold chunkBySizeAux at h
    dsimp only at h
    by_cases hs : s < content.length
    · rw [if_pos hs] at h
      by_cases he : chunkEnd content maxChunkSize s < content.length
      · rw [if_pos he] at h
        cases haux : chunkBySizeAux content maxChunkSize overlapSize n
            (chunkEnd content maxChunkSize s - overlapSize) (num + 1) with
        | none =>
          rw [haux] at h
          cases h
        | some rest =>
          rw [haux] at h
          dsimp only at h
          obtain rfl := (Option.some.inj h).symm
          intro c hc
          rcases List.mem_cons.mp hc with rfl | hm
          · exact ⟨s, num, hs, rfl⟩
          · exact ih _ _ _ haux c hm
      · rw [if_neg he] at h
        obtain rfl := (Option.some.inj h).symm
        intro c hc
        rcases List.mem_cons.mp hc with rfl | hm
        · exact ⟨s, num, hs, rfl⟩
        · cases hm
    · rw [if_neg hs] at h
      obtain rfl := (Option.some.inj h).symm
      intro c hc
      cases hc

theorem utf8Len_aux (l : Str) :
    ∀ a, (∀ c ∈ l, c.utf8Size = 1) →
      l.foldl (fun n c => n + c.utf8Size) a = a + l.length := by
  induction l with
  | nil =>
    intro a _
    simp
  | cons c rest ih =>
    intro a h
    rw [List.foldl_cons, ih (a + c.utf8Size) (fun x hx => h x (List.mem_cons_of_mem _ hx)),
      h c (List.mem_cons_self _ _), List.length_cons]
    omega

theorem utf8Len_eq_length (l : Str) (h : ∀ c ∈ l, c.utf8Size = 1) :
    utf8Len l = l.length := by
  unfold utf8Len
  rw [utf8Len_aux l 0 h]
  omega

theorem slice_getLast (content : Str) (s e : Nat) (hse : s < e)
    (hel : e ≤ content.length) :
    ((content.drop s).take (e - s)).getLast? = (content.drop (e - 1)).head? := by
  rw [List.getLast?_eq_getElem?, List.head?_drop]
  have hlen : ((content.drop s).take (e - s)).length = e - s := by
    rw [List.length_take, List.length_drop]
    omega
  rw [hlen]
  have hlt : e - s - 1 < e - s := by omega
  rw [List.getElem?_take_of_lt hlt, List.getElem?_drop]
  congr 1
  omega

/-- C6 amended: on the size-based path, a chunk is either within the
`max_chunk_size` bound or its content ends at a closing-tag `>` boundary —
the cut-point search extended the window past its tentative end. Oversized
chunks there have empty `elements_contained`, so "a single element that
itself exceeds the bound" does not describe them (see the counterexample).
The ASCII hypothesis ties Python's character-based slicing to the
byte-based `size_bytes`. -/
theorem C6_size_chunks_bounded_or_tag_extended (content : Str)
    (maxChunkSize overlapSize : Nat)
    (hascii : content.all (fun c => decide (c.utf8Size = 1)) = true) :
    (chunkBySize content maxChunkSize overlapSize).all
      (fun cs => cs.all (fun c => decide (c.size_bytes ≤ maxChunkSize) ||
        (c.content.getLast? == some '>'))) = true := by
  cases hres : chunkBySize content maxChunkSize overlapSize with
  | none => rfl
  | some cs =>
    unfold chunkBySize at hres
    simp only [Option.all]
    rw [List.all_eq_true]
    intro c hc
    obtain ⟨s, num, hs, rfl⟩ :=
      aux_shape content maxChunkSize overlapSize (content.length + 1) 0 0 cs hres c hc
    rw [Bool.or_eq_true]
    rcases chunkEnd_cases content maxChunkSize s with hcase | ⟨hge, hle, hgt⟩
    · left
      apply decide_eq_true
      show utf8Len ((content.drop s).take (chunkEnd content maxChunkSize s - s)) ≤
        maxChunkSize
      rw [utf8Len_eq_length]
      · rw [List.length_take, List.length_drop]
        omega
      · intro ch hch
        exact of_decide_eq_true (List.all_eq_true.mp hascii ch
          (List.mem_of_mem_drop (List.mem_of_mem_take hch)))
    · right
      show (((content.drop s).take (chunkEnd content maxChunkSize s - s)).getLast? ==
        some '>') = true
      rw [slice_getLast content s (chunkEnd content maxChunkSize s) (by omega) hle, hgt]
      simp

/-- C6 witness: the same concrete content as the counterexample satisfies
the hypotheses; its oversized first chunk indeed ends in `>`. -/
theorem C6_witness :
    ("abcde</longname>xyz".toList.all (fun c => decide (c.utf8Size = 1)) = true) ∧
      (chunkBySize ("abcde</longname>xyz".toList) 8 2).all
        (fun cs => cs.all (fun c => decide (c.size_bytes ≤ 8) ||
          (c.content.getLast? == some '>'))) = true :=
  ⟨by decide,
    C6_size_chunks_bounded_or_tag_extended ("abcde</longname>xyz".toList) 8 2 (by decide)⟩

end XMLFrame
